import Mathlib

set_option maxHeartbeats 1000000

/-!
Shallow embedding of the pkg/exec command-launcher package (the final snapshot
of the repository: the version with System, hooks, Setenv and the Wait guard).
The Cmd record carries the embedded exec.Cmd fields used by the package plus
the wrapper's own fields (initalised, waited, before, after — the misspelling
of initalised is the source's).  The platform process primitives consumed by
the package (os.Environ, exec.Cmd.Start, exec.Cmd.Wait, and the bytes the
child writes to its bound standard output) are modelled as an explicit
Platform record; user hook functions are modelled by the error value they
return.
-/

namespace Exec

/-- Identity of an io.Reader value handed to a Stdin option. -/
inductive Reader
  | osStdin
  | r (n : Nat)
deriving DecidableEq

/-- Identity of an io.Writer value; buf is the bytes.Buffer that Output
allocates internally. -/
inductive Writer
  | osStdout
  | osStderr
  | buf
  | w (n : Nat)
deriving DecidableEq

/-- The configurable fields that are guarded by an already-set check. -/
inductive Slot
  | stdin
  | stdout
  | stderr
  | beforeFunc
  | afterFunc
deriving DecidableEq

/-- Error values returned by the package: the errors.New messages of the
source, plus user hook errors and platform errors, which the package only
passes through. -/
inductive Err
  | notInitalised
  | alreadySet (f : Slot)
  | waitAlreadyCalled
  | hookFail (n : Nat)
  | platformFail (n : Nat)
deriving DecidableEq

/-- A user hook func(*Cmd) error, modelled by an identity and the error it
returns. -/
structure Hook where
  id : Nat
  ret : Option Err
deriving DecidableEq

/-- The Cmd struct: the embedded exec.Cmd fields the package reads or writes,
plus the wrapper's own fields. -/
structure Cmd where
  path : String
  args : List String
  dir : String := ""
  env : Option (List String) := none
  stdin : Option Reader := none
  stdout : Option Writer := none
  stderr : Option Writer := none
  initalised : Bool := false
  waited : Bool := false
  before : Option Hook := none
  after : Option Hook := none
deriving DecidableEq

/-- Command(name, args...): the designated constructor. -/
def Command (name : String) (args : List String) : Cmd :=
  { path := name, args := args, initalised := true }

/-- The recognized option constructors of the package
(Dir, Stdin, Stdout, Stderr, BeforeFunc, AfterFunc, Setenv). -/
inductive Opt
  | dir (d : String)
  | stdin (r : Reader)
  | stdout (w : Writer)
  | stderr (w : Writer)
  | beforeFunc (h : Hook)
  | afterFunc (h : Hook)
  | setenv (k v : String)
deriving DecidableEq

/-- strings.HasPrefix s p. -/
def hasPre (s p : String) : Bool :=
  p.data.isPrefixOf s.data

/-- Body of the Setenv option applied to the env slice: replace the first
entry starting with key= in place, otherwise append key=val. -/
def setenvList (key val : String) : List String → List String
  | [] => [key ++ "=" ++ val]
  | e :: es =>
    if hasPre e (key ++ "=") then (key ++ "=" ++ val) :: es
    else e :: setenvList key val es

/-- Application of one option to the Cmd; on error the Cmd is returned
unmutated, exactly as in the source where the guarded assignment is skipped. -/
def applyOpt (c : Cmd) : Opt → Cmd × Option Err
  | .dir d => ({ c with dir := d }, none)
  | .stdin r =>
    match c.stdin with
    | some _ => (c, some (.alreadySet .stdin))
    | none => ({ c with stdin := some r }, none)
  | .stdout w =>
    match c.stdout with
    | some _ => (c, some (.alreadySet .stdout))
    | none => ({ c with stdout := some w }, none)
  | .stderr w =>
    match c.stderr with
    | some _ => (c, some (.alreadySet .stderr))
    | none => ({ c with stderr := some w }, none)
  | .beforeFunc h =>
    match c.before with
    | some _ => (c, some (.alreadySet .beforeFunc))
    | none => ({ c with before := some h }, none)
  | .afterFunc h =>
    match c.after with
    | some _ => (c, some (.alreadySet .afterFunc))
    | none => ({ c with after := some h }, none)
  | .setenv k v =>
    ({ c with env := some (setenvList k v (c.env.getD [])) }, none)

/-- applyOptions: apply the options in order, stopping at the first error. -/
def applyOptions (c : Cmd) : List Opt → Cmd × Option Err
  | [] => (c, none)
  | o :: rest =>
    match applyOpt c o with
    | (c1, none) => applyOptions c1 rest
    | (c1, some e) => (c1, some e)

/-- The platform collaborators: os.Environ, the outcome of exec.Cmd.Start and
exec.Cmd.Wait, and the bytes the child writes to its bound standard output. -/
structure Platform where
  environ : List String
  startErr : Option Err := none
  waitErr : Option Err := none
  outBytes : List Nat := []
deriving DecidableEq

/-- applyDefaultOptions: materialize the environment from the invoking
process's environment if it is still unset. -/
def applyDefaultOptions (plat : Platform) (c : Cmd) : Cmd × Option Err :=
  match c.env with
  | none => ({ c with env := some plat.environ }, none)
  | some _ => (c, none)

/-- Result of Start: the mutated Cmd, the returned error, and whether the
platform process-creation primitive (exec.Cmd.Start) was invoked. -/
structure StartResult where
  cmd : Cmd
  err : Option Err
  spawnInvoked : Bool
deriving DecidableEq

/-- Cmd.Start: initalised guard, default options, user options (short-circuit),
before hook, then the platform process-creation primitive. -/
def Cmd.Start (plat : Platform) (c : Cmd) (opts : List Opt) : StartResult :=
  if c.initalised then
    match applyDefaultOptions plat c with
    | (c1, some e) => ⟨c1, some e, false⟩
    | (c1, none) =>
      match applyOptions c1 opts with
      | (c2, some e) => ⟨c2, some e, false⟩
      | (c2, none) =>
        match c2.before with
        | some h =>
          match h.ret with
          | some e => ⟨c2, some e, false⟩
          | none => ⟨c2, plat.startErr, true⟩
        | none => ⟨c2, plat.startErr, true⟩
  else ⟨c, some .notInitalised, false⟩

/-- Result of Wait: the mutated Cmd, the returned error, how many times the
after hook was invoked during this call, and whether the platform wait
(exec.Cmd.Wait) was invoked. -/
structure WaitResult where
  cmd : Cmd
  err : Option Err
  afterRuns : Nat
  platformWaited : Bool
deriving DecidableEq

/-- Cmd.Wait: the already-waited guard, setting the waited flag, the platform
wait, and the deferred after-hook whose error is surfaced only when the
platform wait returned no error. -/
def Cmd.Wait (plat : Platform) (c : Cmd) : WaitResult :=
  if c.waited then ⟨c, some .waitAlreadyCalled, 0, false⟩
  else
    match c.after, plat.waitErr with
    | none, we => ⟨{ c with waited := true }, we, 0, true⟩
    | some h, none => ⟨{ c with waited := true }, h.ret, 1, true⟩
    | some _, some e => ⟨{ c with waited := true }, some e, 1, true⟩

/-- Result of Run: the combination of the Start and Wait observations. -/
structure RunResult where
  cmd : Cmd
  err : Option Err
  afterRuns : Nat
  spawnInvoked : Bool
  platformWaited : Bool
deriving DecidableEq

/-- Cmd.Run: Start, then Wait only when Start returned no error. -/
def Cmd.Run (plat : Platform) (c : Cmd) (opts : List Opt) : RunResult :=
  match Cmd.Start plat c opts with
  | ⟨c1, some e, sp⟩ => ⟨c1, some e, 0, sp, false⟩
  | ⟨c1, none, sp⟩ =>
    match Cmd.Wait plat c1 with
    | ⟨c2, we, ar, pw⟩ => ⟨c2, we, ar, sp, pw⟩

/-- The bytes the child wrote to the writer dest during a run: the child runs
exactly when the spawn succeeded, and writes its output to the writer bound
as the command's standard output. -/
def writtenTo (plat : Platform) (r : RunResult) (dest : Writer) : List Nat :=
  if r.spawnInvoked = true ∧ plat.startErr = none ∧ r.cmd.stdout = some dest then
    plat.outBytes
  else []

/-- The Run call made by Output: the internal Stdout option bound to the
in-memory buffer is prepended before the caller-supplied options. -/
def Cmd.outputRun (plat : Platform) (c : Cmd) (opts : List Opt) : RunResult :=
  Cmd.Run plat c (Opt.stdout Writer.buf :: opts)

/-- Cmd.Output: run with the internal capture option prepended, and return the
buffer's accumulated bytes together with Run's error. -/
def Cmd.Output (plat : Platform) (c : Cmd) (opts : List Opt) : List Nat × Option Err :=
  (writtenTo plat (Cmd.outputRun plat c opts) Writer.buf, (Cmd.outputRun plat c opts).err)

/-- unicode.IsSpace: the Unicode White_Space code points, which is what
strings.Fields splits on. -/
def goIsSpace (ch : Char) : Bool :=
  ch.toNat == 0x09 || ch.toNat == 0x0A || ch.toNat == 0x0B || ch.toNat == 0x0C ||
  ch.toNat == 0x0D || ch.toNat == 0x20 || ch.toNat == 0x85 || ch.toNat == 0xA0 ||
  ch.toNat == 0x1680 || ch.toNat == 0x2000 || ch.toNat == 0x2001 || ch.toNat == 0x2002 ||
  ch.toNat == 0x2003 || ch.toNat == 0x2004 || ch.toNat == 0x2005 || ch.toNat == 0x2006 ||
  ch.toNat == 0x2007 || ch.toNat == 0x2008 || ch.toNat == 0x2009 || ch.toNat == 0x200A ||
  ch.toNat == 0x2028 || ch.toNat == 0x2029 || ch.toNat == 0x202F || ch.toNat == 0x205F ||
  ch.toNat == 0x3000

/-- Accumulator loop of strings.Fields: cur holds the pending token reversed. -/
def fieldsAux : List Char → List Char → List (List Char)
  | [], cur => if cur = [] then [] else [cur.reverse]
  | ch :: cs, cur =>
    if goIsSpace ch then (if cur = [] then [] else [cur.reverse]) ++ fieldsAux cs []
    else fieldsAux cs (ch :: cur)

/-- strings.Fields: the substrings of s between runs of white space. -/
def goFields (s : String) : List String :=
  (fieldsAux s.data []).map (fun l => { data := l })

/-- The Cmd that System constructs: /bin/sh with -c followed by the
whitespace-split tokens of the command string. -/
def systemCmd (command : String) : Cmd :=
  Command "/bin/sh" ("-c" :: goFields command)

/-- System: run the shell command with the three default stream options first
and the caller-supplied options appended after them. -/
def System (plat : Platform) (command : String) (opts : List Opt) : RunResult :=
  Cmd.Run plat (systemCmd command)
    ([Opt.stdin Reader.osStdin, Opt.stdout Writer.osStdout, Opt.stderr Writer.osStderr] ++ opts)

/-- Specification-side splitter, following the claim's words: cut the
character list at every white-space character, keeping empty segments; the
result is the first segment paired with the later segments. -/
def splitEvery : List Char → List Char × List (List Char)
  | [] => ([], [])
  | ch :: cs =>
    if goIsSpace ch then ([], (splitEvery cs).1 :: (splitEvery cs).2)
    else (ch :: (splitEvery cs).1, (splitEvery cs).2)

/-- Specification-side tokens: the nonempty segments between white-space
characters, i.e. the maximal white-space-free runs of the input. -/
def specTokens (cs : List Char) : List (List Char) :=
  ((splitEvery cs).1 :: (splitEvery cs).2).filter (fun t => !t.isEmpty)

/-! Helper lemmas about option application. -/

theorem applyDefaultOptions_snd (plat : Platform) (c : Cmd) :
    (applyDefaultOptions plat c).2 = none := by
  cases h : c.env <;> simp [applyDefaultOptions, h]

theorem applyDefaultOptions_stdout (plat : Platform) (c : Cmd) :
    (applyDefaultOptions plat c).1.stdout = c.stdout := by
  cases h : c.env <;> simp [applyDefaultOptions, h]

theorem applyOpt_waited (c : Cmd) (o : Opt) : (applyOpt c o).1.waited = c.waited := by
  cases o with
  | dir d => rfl
  | stdin r => cases h : c.stdin <;> simp [applyOpt, h]
  | stdout w => cases h : c.stdout <;> simp [applyOpt, h]
  | stderr w => cases h : c.stderr <;> simp [applyOpt, h]
  | beforeFunc hk => cases h : c.before <;> simp [applyOpt, h]
  | afterFunc hk => cases h : c.after <;> simp [applyOpt, h]
  | setenv k v => rfl

theorem applyOptions_waited :
    ∀ (opts : List Opt) (c : Cmd), (applyOptions c opts).1.waited = c.waited := by
  intro opts
  induction opts with
  | nil => intro c; rfl
  | cons o rest ih =>
    intro c
    have hw := applyOpt_waited c o
    rcases h : applyOpt c o with ⟨c1, e⟩
    rw [h] at hw
    cases e with
    | none =>
      have h1 : applyOptions c (o :: rest) = applyOptions c1 rest := by
        simp [applyOptions, h]
      rw [h1, ih c1]; exact hw
    | some e =>
      have h1 : applyOptions c (o :: rest) = (c1, some e) := by
        simp [applyOptions, h]
      rw [h1]; exact hw

theorem applyOpt_err_shape (c : Cmd) (o : Opt) :
    (applyOpt c o).2 = none ∨ ∃ f, applyOpt c o = (c, some (Err.alreadySet f)) := by
  cases o with
  | dir d => left; rfl
  | stdin r =>
    cases h : c.stdin with
    | none => left; simp [applyOpt, h]
    | some x => right; exact ⟨Slot.stdin, by simp [applyOpt, h]⟩
  | stdout w =>
    cases h : c.stdout with
    | none => left; simp [applyOpt, h]
    | some x => right; exact ⟨Slot.stdout, by simp [applyOpt, h]⟩
  | stderr w =>
    cases h : c.stderr with
    | none => left; simp [applyOpt, h]
    | some x => right; exact ⟨Slot.stderr, by simp [applyOpt, h]⟩
  | beforeFunc hk =>
    cases h : c.before with
    | none => left; simp [applyOpt, h]
    | some x => right; exact ⟨Slot.beforeFunc, by simp [applyOpt, h]⟩
  | afterFunc hk =>
    cases h : c.after with
    | none => left; simp [applyOpt, h]
    | some x => right; exact ⟨Slot.afterFunc, by simp [applyOpt, h]⟩
  | setenv k v => left; rfl

theorem applyOpt_stdout_isSome (c : Cmd) (o : Opt)
    (hs : c.stdout.isSome = true) (hok : (applyOpt c o).2 = none) :
    (applyOpt c o).1.stdout.isSome = true := by
  cases o with
  | dir d => simpa [applyOpt] using hs
  | stdin r =>
    cases h : c.stdin with
    | none => simpa [applyOpt, h] using hs
    | some x => simp [applyOpt, h] at hok
  | stdout w =>
    cases h : c.stdout with
    | none => rw [h] at hs; simp at hs
    | some x => simp [applyOpt, h] at hok
  | stderr w =>
    cases h : c.stderr with
    | none => simpa [applyOpt, h] using hs
    | some x => simp [applyOpt, h] at hok
  | beforeFunc hk =>
    cases h : c.before with
    | none => simpa [applyOpt, h] using hs
    | some x => simp [applyOpt, h] at hok
  | afterFunc hk =>
    cases h : c.after with
    | none => simpa [applyOpt, h] using hs
    | some x => simp [applyOpt, h] at hok
  | setenv k v => simpa [applyOpt] using hs

theorem applyOptions_append :
    ∀ (xs ys : List Opt) (c : Cmd),
      applyOptions c (xs ++ ys) =
        match applyOptions c xs with
        | (d, none) => applyOptions d ys
        | (d, some e) => (d, some e) := by
  intro xs
  induction xs with
  | nil => intro ys c; rfl
  | cons o rest ih =>
    intro ys c
    rcases h : applyOpt c o with ⟨c1, e⟩
    cases e with
    | none =>
      have h1 : applyOptions c ((o :: rest) ++ ys) = applyOptions c1 (rest ++ ys) := by
        simp [applyOptions, h]
      have h2 : applyOptions c (o :: rest) = applyOptions c1 rest := by
        simp [applyOptions, h]
      rw [h1, ih ys c1, h2]
    | some e =>
      have h1 : applyOptions c ((o :: rest) ++ ys) = (c1, some e) := by
        simp [applyOptions, h]
      have h2 : applyOptions c (o :: rest) = (c1, some e) := by
        simp [applyOptions, h]
      rw [h1, h2]

/-- When a Stdout option occurs among the options and the command's stdout is
already bound, option application ends in some already-set error. -/
theorem applyOptions_stdout_conflict :
    ∀ (opts : List Opt) (c : Cmd) (w : Writer),
      c.stdout.isSome = true → Opt.stdout w ∈ opts →
      ∃ f, (applyOptions c opts).2 = some (Err.alreadySet f) := by
  intro opts
  induction opts with
  | nil => intro c w _ hmem; cases hmem
  | cons o rest ih =>
    intro c w hs hmem
    rcases applyOpt_err_shape c o with hok | ⟨f, herr⟩
    · rcases h : applyOpt c o with ⟨c1, e⟩
      rw [h] at hok
      cases e with
      | some e => simp at hok
      | none =>
        have h1 : applyOptions c (o :: rest) = applyOptions c1 rest := by
          simp [applyOptions, h]
        rcases List.mem_cons.mp hmem with heq | hmem2
        · subst heq
          have : c.stdout.isSome = true := hs
          cases hso : c.stdout with
          | none => rw [hso] at this; simp at this
          | some x => simp [applyOpt, hso] at h
        · have hs1 : c1.stdout.isSome = true := by
            have := applyOpt_stdout_isSome c o hs (by rw [h])
            rw [h] at this; exact this
          rw [h1]; exact ih c1 w hs1 hmem2
    · refine ⟨f, ?_⟩
      have h1 : applyOptions c (o :: rest) = (c, some (Err.alreadySet f)) := by
        simp [applyOptions, herr]
      rw [h1]

/-! Helper lemmas about Start, Run and Wait. -/

theorem start_not_initalised (plat : Platform) (c : Cmd) (opts : List Opt)
    (h : c.initalised = false) :
    Cmd.Start plat c opts = ⟨c, some .notInitalised, false⟩ := by
  simp [Cmd.Start, h]

theorem start_of_applyOptions_err (plat : Platform) (c : Cmd) (opts : List Opt)
    (c2 : Cmd) (e : Err) (hinit : c.initalised = true)
    (h : applyOptions (applyDefaultOptions plat c).1 opts = (c2, some e)) :
    Cmd.Start plat c opts = ⟨c2, some e, false⟩ := by
  rcases hd : applyDefaultOptions plat c with ⟨c1, ed⟩
  have hed : ed = none := by
    have := applyDefaultOptions_snd plat c; rw [hd] at this; exact this
  subst hed
  rw [hd] at h
  simp only [] at h
  simp [Cmd.Start, hinit, hd, h]

theorem start_of_before_err (plat : Platform) (c : Cmd) (opts : List Opt)
    (c2 : Cmd) (hk : Hook) (e : Err) (hinit : c.initalised = true)
    (h : applyOptions (applyDefaultOptions plat c).1 opts = (c2, none))
    (hb : c2.before = some hk) (hr : hk.ret = some e) :
    Cmd.Start plat c opts = ⟨c2, some e, false⟩ := by
  rcases hd : applyDefaultOptions plat c with ⟨c1, ed⟩
  have hed : ed = none := by
    have := applyDefaultOptions_snd plat c; rw [hd] at this; exact this
  subst hed
  rw [hd] at h
  simp only [] at h
  simp [Cmd.Start, hinit, hd, h, hb, hr]

theorem start_of_before_ok (plat : Platform) (c : Cmd) (opts : List Opt)
    (c2 : Cmd) (hk : Hook) (hinit : c.initalised = true)
    (h : applyOptions (applyDefaultOptions plat c).1 opts = (c2, none))
    (hb : c2.before = some hk) (hr : hk.ret = none) :
    Cmd.Start plat c opts = ⟨c2, plat.startErr, true⟩ := by
  rcases hd : applyDefaultOptions plat c with ⟨c1, ed⟩
  have hed : ed = none := by
    have := applyDefaultOptions_snd plat c; rw [hd] at this; exact this
  subst hed
  rw [hd] at h
  simp only [] at h
  simp [Cmd.Start, hinit, hd, h, hb, hr]

theorem start_of_no_before (plat : Platform) (c : Cmd) (opts : List Opt)
    (c2 : Cmd) (hinit : c.initalised = true)
    (h : applyOptions (applyDefaultOptions plat c).1 opts = (c2, none))
    (hb : c2.before = none) :
    Cmd.Start plat c opts = ⟨c2, plat.startErr, true⟩ := by
  rcases hd : applyDefaultOptions plat c with ⟨c1, ed⟩
  have hed : ed = none := by
    have := applyDefaultOptions_snd plat c; rw [hd] at this; exact this
  subst hed
  rw [hd] at h
  simp only [] at h
  simp [Cmd.Start, hinit, hd, h, hb]

theorem start_defaults_first (plat : Platform) (c : Cmd) (opts : List Opt)
    (hinit : c.initalised = true) (henv : c.env = none) :
    Cmd.Start plat c opts = Cmd.Start plat { c with env := some plat.environ } opts := by
  simp [Cmd.Start, hinit, applyDefaultOptions, henv]

theorem start_env_independent (plat : Platform) (c : Cmd) (opts : List Opt)
    (l e2 : List String) (henv : c.env = some l) :
    Cmd.Start plat c opts = Cmd.Start { plat with environ := e2 } c opts := by
  have h1 : applyDefaultOptions plat c = (c, none) := by
    simp [applyDefaultOptions, henv]
  have h2 : applyDefaultOptions { plat with environ := e2 } c = (c, none) := by
    simp [applyDefaultOptions, henv]
  cases hinit : c.initalised with
  | true => simp [Cmd.Start, hinit, h1, h2]
  | false => simp [Cmd.Start, hinit]

theorem run_of_start_err (plat : Platform) (c : Cmd) (opts : List Opt)
    (c1 : Cmd) (e : Err) (sp : Bool)
    (h : Cmd.Start plat c opts = ⟨c1, some e, sp⟩) :
    Cmd.Run plat c opts = ⟨c1, some e, 0, sp, false⟩ := by
  simp [Cmd.Run, h]

theorem run_of_start_ok (plat : Platform) (c : Cmd) (opts : List Opt)
    (c1 : Cmd) (sp : Bool)
    (h : Cmd.Start plat c opts = ⟨c1, none, sp⟩) :
    Cmd.Run plat c opts = ⟨(Cmd.Wait plat c1).cmd, (Cmd.Wait plat c1).err,
      (Cmd.Wait plat c1).afterRuns, sp, (Cmd.Wait plat c1).platformWaited⟩ := by
  rcases hw : Cmd.Wait plat c1 with ⟨c2, we, ar, pw⟩
  simp [Cmd.Run, h, hw]

theorem wait_cmd_waited (plat : Platform) (c : Cmd) :
    (Cmd.Wait plat c).cmd.waited = true := by
  cases h : c.waited with
  | true => simp [Cmd.Wait, h]
  | false =>
    cases ha : c.after <;> cases hw : plat.waitErr <;> simp [Cmd.Wait, h, ha, hw]

theorem wait_already (plat : Platform) (c : Cmd) (h : c.waited = true) :
    Cmd.Wait plat c = ⟨c, some Err.waitAlreadyCalled, 0, false⟩ := by
  simp [Cmd.Wait, h]

/-! Helper lemmas about Setenv. -/

theorem isPrefixOf_self_append : ∀ (l t : List Char), l.isPrefixOf (l ++ t) = true := by
  intro l
  induction l with
  | nil => intro t; simp [List.isPrefixOf]
  | cons a as ih => intro t; simp [List.isPrefixOf, ih]

theorem hasPre_self (p v : String) : hasPre (p ++ v) p = true := by
  unfold hasPre
  have hd : (p ++ v).data = p.data ++ v.data := by
    cases p; cases v; rfl
  rw [hd]
  exact isPrefixOf_self_append p.data v.data

theorem setenv_overwrite (k v1 v2 : String) :
    ∀ env, setenvList k v2 (setenvList k v1 env) = setenvList k v2 env := by
  intro env
  induction env with
  | nil => simp [setenvList, hasPre_self]
  | cons e es ih =>
    cases hp : hasPre e (k ++ "=") with
    | true => simp [setenvList, hp, hasPre_self]
    | false => simp [setenvList, hp, ih]

theorem filter_eq_nil_of_countP_zero (q : String → Bool) :
    ∀ l : List String, l.countP q = 0 → l.filter q = [] := by
  intro l
  induction l with
  | nil => intro _; rfl
  | cons a l ih =>
    intro h
    rw [List.countP_cons] at h
    cases hq : q a with
    | true => rw [hq] at h; simp at h
    | false =>
      simp only [List.filter, hq]
      exact ih (by rw [hq] at h; simpa using h)

theorem setenv_filter_key (k v : String) :
    ∀ env, env.countP (fun e => hasPre e (k ++ "=")) ≤ 1 →
      (setenvList k v env).filter (fun e => hasPre e (k ++ "=")) = [k ++ "=" ++ v] := by
  intro env
  induction env with
  | nil => intro _; simp [setenvList, List.filter, hasPre_self]
  | cons e es ih =>
    intro hc
    cases hp : hasPre e (k ++ "=") with
    | true =>
      rw [List.countP_cons] at hc
      rw [hp] at hc
      simp at hc
      have h0 : es.countP (fun e => hasPre e (k ++ "=")) = 0 := by simpa using hc
      have hnil : es.filter (fun e => hasPre e (k ++ "=")) = [] :=
        filter_eq_nil_of_countP_zero _ es h0
      simp [setenvList, hp, List.filter, hasPre_self, hnil]
    | false =>
      rw [List.countP_cons] at hc
      rw [hp] at hc
      have hc2 : es.countP (fun e => hasPre e (k ++ "=")) ≤ 1 := by simpa using hc
      simp [setenvList, hp, List.filter, ih hc2]

theorem setenv_filter_other (k v : String) :
    ∀ env, (setenvList k v env).filter (fun e => !(hasPre e (k ++ "="))) =
      env.filter (fun e => !(hasPre e (k ++ "="))) := by
  intro env
  induction env with
  | nil => simp [setenvList, List.filter, hasPre_self]
  | cons e es ih =>
    cases hp : hasPre e (k ++ "=") with
    | true => simp [setenvList, hp, List.filter, hasPre_self]
    | false => simp [setenvList, hp, List.filter, ih]

theorem setenv_shape (k v : String) :
    ∀ env, ((∀ e ∈ env, hasPre e (k ++ "=") = false) ∧
             setenvList k v env = env ++ [k ++ "=" ++ v])
      ∨ (∃ pre x suf, env = pre ++ x :: suf ∧ hasPre x (k ++ "=") = true
           ∧ setenvList k v env = pre ++ (k ++ "=" ++ v) :: suf) := by
  intro env
  induction env with
  | nil =>
    left
    refine ⟨?_, by simp [setenvList]⟩
    intro e he; cases he
  | cons e es ih =>
    cases hp : hasPre e (k ++ "=") with
    | true =>
      right
      exact ⟨[], e, es, rfl, hp, by simp [setenvList, hp]⟩
    | false =>
      rcases ih with ⟨hall, heq⟩ | ⟨pre, x, suf, he, hx, heq⟩
      · left
        constructor
        · intro a ha
          rcases List.mem_cons.mp ha with rfl | ha2
          · exact hp
          · exact hall a ha2
        · simp [setenvList, hp, heq]
      · right
        refine ⟨e :: pre, x, suf, by rw [he]; rfl, hx, by simp [setenvList, hp, heq]⟩

/-! Helper lemmas about the whitespace splitter. -/

theorem ne_nil_isEmpty_false {α : Type} (l : List α) (h : l ≠ []) : l.isEmpty = false := by
  cases l with
  | nil => exact absurd rfl h
  | cons a t => rfl

theorem reverse_ne_nil {α : Type} (l : List α) (h : l ≠ []) : l.reverse ≠ [] := by
  intro hr
  apply h
  have := congrArg List.reverse hr
  simpa using this

theorem splitEvery_no_space :
    ∀ cs : List Char,
      (∀ ch ∈ (splitEvery cs).1, goIsSpace ch = false)
    ∧ (∀ t ∈ (splitEvery cs).2, ∀ ch ∈ t, goIsSpace ch = false) := by
  intro cs
  induction cs with
  | nil =>
    constructor
    · intro ch h; cases h
    · intro t h; cases h
  | cons a cs ih =>
    cases hs : goIsSpace a with
    | true =>
      constructor
      · intro ch h; simp [splitEvery, hs] at h
      · intro t ht ch hch
        simp [splitEvery, hs] at ht
        rcases ht with rfl | ht2
        · exact ih.1 ch hch
        · exact ih.2 t ht2 ch hch
    | false =>
      constructor
      · intro ch h
        simp [splitEvery, hs] at h
        rcases h with rfl | h2
        · exact hs
        · exact ih.1 ch h2
      · intro t ht ch hch
        simp [splitEvery, hs] at ht
        exact ih.2 t ht ch hch

theorem fieldsAux_splitEvery :
    ∀ (cs cur : List Char),
      fieldsAux cs cur =
        ((cur.reverse ++ (splitEvery cs).1) :: (splitEvery cs).2).filter
          (fun t => !t.isEmpty) := by
  intro cs
  induction cs with
  | nil =>
    intro cur
    by_cases hcur : cur = []
    · subst hcur; rfl
    · have h2 : cur.reverse.isEmpty = false :=
        ne_nil_isEmpty_false _ (reverse_ne_nil cur hcur)
      simp [fieldsAux, splitEvery, hcur, List.filter, h2]
  | cons a cs ih =>
    intro cur
    cases hs : goIsSpace a with
    | false =>
      have h1 : fieldsAux (a :: cs) cur = fieldsAux cs (a :: cur) := by
        simp [fieldsAux, hs]
      rw [h1, ih (a :: cur)]
      simp [splitEvery, hs]
    | true =>
      have h1 : fieldsAux (a :: cs) cur =
          (if cur = [] then [] else [cur.reverse]) ++ fieldsAux cs [] := by
        simp [fieldsAux, hs]
      rw [h1, ih []]
      by_cases hcur : cur = []
      · subst hcur
        simp [splitEvery, hs, List.filter]
      · have h2 : cur.reverse.isEmpty = false :=
          ne_nil_isEmpty_false _ (reverse_ne_nil cur hcur)
        simp [splitEvery, hs, hcur, List.filter, h2]

theorem map_data_mk : ∀ ls : List (List Char),
    (ls.map (fun l => ({ data := l } : String))).map String.data = ls := by
  intro ls
  induction ls with
  | nil => rfl
  | cons l t ih => simp [List.map, ih]

theorem goFields_spec (s : String) :
    (goFields s).map String.data = specTokens s.data := by
  unfold goFields specTokens
  rw [map_data_mk, fieldsAux_splitEvery s.data []]
  simp

theorem goFields_tokens (s : String) :
    ∀ t ∈ goFields s, t ≠ "" ∧ ∀ ch ∈ t.data, goIsSpace ch = false := by
  intro t ht
  have hd : t.data ∈ specTokens s.data := by
    rw [← goFields_spec]
    exact List.mem_map_of_mem String.data ht
  constructor
  · have hne := List.of_mem_filter hd
    intro h0
    rw [h0] at hne
    simp at hne
  · intro ch hch
    have hmem := List.mem_of_mem_filter hd
    rcases List.mem_cons.mp hmem with heq | h2
    · rw [heq] at hch
      exact (splitEvery_no_space s.data).1 ch hch
    · exact (splitEvery_no_space s.data).2 _ h2 ch hch

theorem applyDefaultOptions_waited (plat : Platform) (c : Cmd) :
    (applyDefaultOptions plat c).1.waited = c.waited := by
  cases h : c.env <;> simp [applyDefaultOptions, h]

theorem start_waited (plat : Platform) (c : Cmd) (opts : List Opt) :
    (Cmd.Start plat c opts).cmd.waited = c.waited := by
  cases hinit : c.initalised with
  | false => simp [Cmd.Start, hinit]
  | true =>
    rcases hd : applyDefaultOptions plat c with ⟨c1, ed⟩
    have hed : ed = none := by
      have := applyDefaultOptions_snd plat c; rw [hd] at this; exact this
    subst hed
    have h1 : c1.waited = c.waited := by
      have := applyDefaultOptions_waited plat c; rw [hd] at this; exact this
    rcases ho : applyOptions c1 opts with ⟨c2, e2⟩
    have h2 : c2.waited = c1.waited := by
      have := applyOptions_waited opts c1; rw [ho] at this; exact this
    cases e2 with
    | some e =>
      have h3 : Cmd.Start plat c opts = ⟨c2, some e, false⟩ := by
        simp [Cmd.Start, hinit, hd, ho]
      rw [h3]; exact h2.trans h1
    | none =>
      cases hb : c2.before with
      | none =>
        have h3 : Cmd.Start plat c opts = ⟨c2, plat.startErr, true⟩ := by
          simp [Cmd.Start, hinit, hd, ho, hb]
        rw [h3]; exact h2.trans h1
      | some hkk =>
        cases hr : hkk.ret with
        | some e =>
          have h3 : Cmd.Start plat c opts = ⟨c2, some e, false⟩ := by
            simp [Cmd.Start, hinit, hd, ho, hb, hr]
          rw [h3]; exact h2.trans h1
        | none =>
          have h3 : Cmd.Start plat c opts = ⟨c2, plat.startErr, true⟩ := by
            simp [Cmd.Start, hinit, hd, ho, hb, hr]
          rw [h3]; exact h2.trans h1

theorem run_waited_mono (plat : Platform) (c : Cmd) (opts : List Opt)
    (h : c.waited = true) : (Cmd.Run plat c opts).cmd.waited = true := by
  rcases hs : Cmd.Start plat c opts with ⟨c1, e, sp⟩
  have h1 : c1.waited = true := by
    have := start_waited plat c opts; rw [hs] at this; exact this.trans h
  cases e with
  | some e =>
    have h2 : Cmd.Run plat c opts = ⟨c1, some e, 0, sp, false⟩ := by
      simp [Cmd.Run, hs]
    rw [h2]; exact h1
  | none =>
    rcases hw : Cmd.Wait plat c1 with ⟨c2, we, ar, pw⟩
    have h2 : c2.waited = true := by
      have := wait_cmd_waited plat c1; rw [hw] at this; exact this
    have h3 : Cmd.Run plat c opts = ⟨c2, we, ar, sp, pw⟩ := by
      simp [Cmd.Run, hs, hw]
    rw [h3]; exact h2

/-! Claim theorems. -/

/-- C1: the claim says a caller-supplied stream option appended after
System's defaults can override each default stream binding.  The code (and
the spec's own option table) makes the stream options fail once the field is
set, so the override is rejected: with a caller Stdout option, System returns
the Stdout-already-set error and never invokes process creation, while the
defaults themselves are indeed wired to the calling process's streams. -/
theorem system_override_rejected :
    (System ⟨["PATH=/bin"], none, none, []⟩ "echo hi" [Opt.stdout (Writer.w 1)]).err
        = some (Err.alreadySet Slot.stdout)
  ∧ (System ⟨["PATH=/bin"], none, none, []⟩ "echo hi" [Opt.stdout (Writer.w 1)]).spawnInvoked
        = false
  ∧ (System ⟨["PATH=/bin"], none, none, []⟩ "echo hi" []).cmd.stdin = some Reader.osStdin
  ∧ (System ⟨["PATH=/bin"], none, none, []⟩ "echo hi" []).cmd.stdout = some Writer.osStdout
  ∧ (System ⟨["PATH=/bin"], none, none, []⟩ "echo hi" []).cmd.stderr = some Writer.osStderr := by
  decide

/-- C4: System splits the command string into tokens at each run of white
space (no quoting or escaping) and invokes the system shell with -c followed
by all of the split tokens: the constructed command is /bin/sh with argument
list -c :: tokens, every token is nonempty and white-space-free, and the
tokens are exactly the segments between white-space characters. -/
theorem system_whitespace_split (command : String) :
    (systemCmd command).path = "/bin/sh"
  ∧ (systemCmd command).args = "-c" :: goFields command
  ∧ (∀ t ∈ goFields command, t ≠ "" ∧ ∀ ch ∈ t.data, goIsSpace ch = false)
  ∧ (goFields command).map String.data = specTokens command.data :=
  ⟨rfl, rfl, goFields_tokens command, goFields_spec command⟩

/-- C4 witness: the theorem applied to a concrete command string. -/
theorem system_whitespace_split_check :
    (systemCmd "ab  cd").path = "/bin/sh"
  ∧ (systemCmd "ab  cd").args = "-c" :: goFields "ab  cd"
  ∧ (∀ t ∈ goFields "ab  cd", t ≠ "" ∧ ∀ ch ∈ t.data, goIsSpace ch = false)
  ∧ (goFields "ab  cd").map String.data = specTokens "ab  cd".data :=
  system_whitespace_split "ab  cd"

/-- C6: applying the same stream option a second time fails on the second
application with the already-set error and leaves the first-set value (and
the rest of the command) unchanged; likewise for BeforeFunc and AfterFunc. -/
theorem stream_and_hook_write_once (c : Cmd) (r r' : Reader) (w w' u u' : Writer)
    (h h' : Hook) :
    (c.stdin = none → applyOptions c [.stdin r, .stdin r'] =
        ({ c with stdin := some r }, some (.alreadySet .stdin)))
  ∧ (c.stdout = none → applyOptions c [.stdout w, .stdout w'] =
        ({ c with stdout := some w }, some (.alreadySet .stdout)))
  ∧ (c.stderr = none → applyOptions c [.stderr u, .stderr u'] =
        ({ c with stderr := some u }, some (.alreadySet .stderr)))
  ∧ (c.before = none → applyOptions c [.beforeFunc h, .beforeFunc h'] =
        ({ c with before := some h }, some (.alreadySet .beforeFunc)))
  ∧ (c.after = none → applyOptions c [.afterFunc h, .afterFunc h'] =
        ({ c with after := some h }, some (.alreadySet .afterFunc))) := by
  refine ⟨?_, ?_, ?_, ?_, ?_⟩ <;> intro hset <;> simp [applyOptions, applyOpt, hset]

/-- C6 witness: the stdin clause at a freshly constructed command. -/
theorem stream_and_hook_write_once_check :
    applyOptions (Command "x" []) [Opt.stdin (Reader.r 0), Opt.stdin (Reader.r 1)] =
      ({ Command "x" [] with stdin := some (Reader.r 0) }, some (Err.alreadySet Slot.stdin)) :=
  (stream_and_hook_write_once (Command "x" []) (Reader.r 0) (Reader.r 1)
    Writer.osStdout Writer.osStdout Writer.osStdout Writer.osStdout ⟨0, none⟩ ⟨0, none⟩).1 rfl

/-- C8: on a command not produced by the constructor (initalised is false),
Start, Run and Output all fail with the not-initalised error and the platform
process-creation primitive is never invoked. -/
theorem not_initalised_fails (plat : Platform) (c : Cmd) (opts1 opts2 opts3 : List Opt)
    (h : c.initalised = false) :
    Cmd.Start plat c opts1 = ⟨c, some Err.notInitalised, false⟩
  ∧ Cmd.Run plat c opts2 = ⟨c, some Err.notInitalised, 0, false, false⟩
  ∧ Cmd.Output plat c opts3 = ([], some Err.notInitalised)
  ∧ (Cmd.outputRun plat c opts3).spawnInvoked = false := by
  have hs1 := start_not_initalised plat c opts1 h
  have hs2 := start_not_initalised plat c opts2 h
  have hs3 := start_not_initalised plat c (Opt.stdout Writer.buf :: opts3) h
  have hr2 := run_of_start_err plat c opts2 c Err.notInitalised false hs2
  have hr3 := run_of_start_err plat c (Opt.stdout Writer.buf :: opts3) c
    Err.notInitalised false hs3
  refine ⟨hs1, hr2, ?_, ?_⟩
  · unfold Cmd.Output Cmd.outputRun
    rw [hr3]
    simp [writtenTo]
  · unfold Cmd.outputRun
    rw [hr3]

/-- C8 witness: the theorem applied to the zero-value command. -/
theorem not_initalised_fails_check :
    Cmd.Start ⟨["E=1"], none, none, []⟩ { path := "", args := [] } [] =
      ⟨{ path := "", args := [] }, some Err.notInitalised, false⟩
  ∧ Cmd.Run ⟨["E=1"], none, none, []⟩ { path := "", args := [] } [] =
      ⟨{ path := "", args := [] }, some Err.notInitalised, 0, false, false⟩
  ∧ Cmd.Output ⟨["E=1"], none, none, []⟩ { path := "", args := [] } [] =
      ([], some Err.notInitalised)
  ∧ (Cmd.outputRun ⟨["E=1"], none, none, []⟩ { path := "", args := [] } []).spawnInvoked
      = false :=
  not_initalised_fails ⟨["E=1"], none, none, []⟩ { path := "", args := [] } [] [] [] rfl

/-- C9: a second call to Wait on the same command fails with the
already-waited error, does not invoke the platform wait, does not re-invoke
the after hook, and leaves the command unchanged. -/
theorem wait_twice_fails (plat plat2 : Platform) (c : Cmd) :
    (Cmd.Wait plat2 (Cmd.Wait plat c).cmd).err = some Err.waitAlreadyCalled
  ∧ (Cmd.Wait plat2 (Cmd.Wait plat c).cmd).platformWaited = false
  ∧ (Cmd.Wait plat2 (Cmd.Wait plat c).cmd).afterRuns = 0
  ∧ (Cmd.Wait plat2 (Cmd.Wait plat c).cmd).cmd = (Cmd.Wait plat c).cmd := by
  have h := wait_already plat2 ((Cmd.Wait plat c).cmd) (wait_cmd_waited plat c)
  rw [h]
  exact ⟨rfl, rfl, rfl, rfl⟩

/-- C3: on a started, not-yet-waited command with an after hook registered,
Wait invokes the after hook exactly once after the platform wait, whatever
the platform wait's outcome; when the platform wait returned no error the
hook's error becomes Wait's error, and when the platform wait returned an
error that error is returned unchanged and the hook's error is discarded. -/
theorem wait_after_hook (plat : Platform) (c : Cmd) (hk : Hook)
    (hw : c.waited = false) (ha : c.after = some hk) :
    (Cmd.Wait plat c).afterRuns = 1
  ∧ (Cmd.Wait plat c).platformWaited = true
  ∧ (plat.waitErr = none → (Cmd.Wait plat c).err = hk.ret)
  ∧ (∀ e, plat.waitErr = some e → (Cmd.Wait plat c).err = some e) := by
  cases hwe : plat.waitErr with
  | none =>
    have h : Cmd.Wait plat c = ⟨{ c with waited := true }, hk.ret, 1, true⟩ := by
      simp [Cmd.Wait, hw, ha, hwe]
    rw [h]
    exact ⟨rfl, rfl, fun _ => rfl, fun e he => by cases he⟩
  | some e0 =>
    have h : Cmd.Wait plat c = ⟨{ c with waited := true }, some e0, 1, true⟩ := by
      simp [Cmd.Wait, hw, ha, hwe]
    rw [h]
    refine ⟨rfl, rfl, fun hne => ?_, fun e he => ?_⟩
    · cases hne
    · exact he

/-- C3 witness: a hook error surfaced on a clean wait, and a platform wait
error returned unchanged with the hook error discarded. -/
theorem wait_after_hook_check :
    (Cmd.Wait ⟨[], none, none, []⟩
        { Command "x" [] with after := some ⟨1, some (Err.hookFail 9)⟩ }).afterRuns = 1
  ∧ (Cmd.Wait ⟨[], none, none, []⟩
        { Command "x" [] with after := some ⟨1, some (Err.hookFail 9)⟩ }).err
      = some (Err.hookFail 9)
  ∧ (Cmd.Wait ⟨[], none, some (Err.platformFail 2), []⟩
        { Command "x" [] with after := some ⟨1, some (Err.hookFail 9)⟩ }).err
      = some (Err.platformFail 2) :=
  ⟨(wait_after_hook ⟨[], none, none, []⟩
      { Command "x" [] with after := some ⟨1, some (Err.hookFail 9)⟩ }
      ⟨1, some (Err.hookFail 9)⟩ rfl rfl).1,
   (wait_after_hook ⟨[], none, none, []⟩
      { Command "x" [] with after := some ⟨1, some (Err.hookFail 9)⟩ }
      ⟨1, some (Err.hookFail 9)⟩ rfl rfl).2.2.1 rfl,
   (wait_after_hook ⟨[], none, some (Err.platformFail 2), []⟩
      { Command "x" [] with after := some ⟨1, some (Err.hookFail 9)⟩ }
      ⟨1, some (Err.hookFail 9)⟩ rfl rfl).2.2.2 (Err.platformFail 2) rfl⟩

/-- C10: Wait leaves the waited flag true whatever the platform wait's
outcome; no operation of the package ever clears the flag; and on a command
whose flag is set every further Wait call returns the already-waited error
without invoking the platform wait or the after hook. -/
theorem waited_flag_permanent (plat : Platform) (c : Cmd) :
    (Cmd.Wait plat c).cmd.waited = true
  ∧ (∀ (c2 : Cmd) (o : Opt), c2.waited = true → (applyOpt c2 o).1.waited = true)
  ∧ (∀ (plat2 : Platform) (c2 : Cmd) (opts : List Opt), c2.waited = true →
      (Cmd.Start plat2 c2 opts).cmd.waited = true)
  ∧ (∀ (plat2 : Platform) (c2 : Cmd) (opts : List Opt), c2.waited = true →
      (Cmd.Run plat2 c2 opts).cmd.waited = true)
  ∧ (∀ (plat2 : Platform) (c2 : Cmd), c2.waited = true →
      Cmd.Wait plat2 c2 = ⟨c2, some Err.waitAlreadyCalled, 0, false⟩) := by
  refine ⟨wait_cmd_waited plat c, ?_, ?_, ?_, ?_⟩
  · intro c2 o h2; rw [applyOpt_waited]; exact h2
  · intro plat2 c2 opts h2; rw [start_waited]; exact h2
  · intro plat2 c2 opts h2; exact run_waited_mono plat2 c2 opts h2
  · intro plat2 c2 h2; exact wait_already plat2 c2 h2

/-- C10 witness: after a Wait whose platform wait failed, the flag is set and
a further Wait returns the already-waited error without platform wait. -/
theorem waited_flag_permanent_check :
    (Cmd.Wait ⟨[], none, some (Err.platformFail 3), []⟩ (Command "x" [])).cmd.waited = true
  ∧ Cmd.Wait ⟨[], none, none, []⟩
      (Cmd.Wait ⟨[], none, some (Err.platformFail 3), []⟩ (Command "x" [])).cmd =
      ⟨(Cmd.Wait ⟨[], none, some (Err.platformFail 3), []⟩ (Command "x" [])).cmd,
        some Err.waitAlreadyCalled, 0, false⟩ :=
  ⟨(waited_flag_permanent ⟨[], none, some (Err.platformFail 3), []⟩ (Command "x" [])).1,
   (waited_flag_permanent ⟨[], none, some (Err.platformFail 3), []⟩ (Command "x" [])).2.2.2.2
     ⟨[], none, none, []⟩ _
     (waited_flag_permanent ⟨[], none, some (Err.platformFail 3), []⟩ (Command "x" [])).1⟩

/-- C5: Start applies the default-options pass first (materializing the
environment when unset), then the caller's options in the order supplied —
option application composes sequentially and stops at the first failing
option, leaving the later options unapplied — then the before hook; an error
from an option or from the before hook becomes Start's error and the platform
process-creation primitive is never invoked. -/
theorem start_option_protocol (plat : Platform) (c c1 c2 c3 : Cmd)
    (opts pre rest xs ys : List Opt) (o : Opt) (e e2 : Err) (hk : Hook) :
    (c.initalised = true → c.env = none →
      Cmd.Start plat c opts = Cmd.Start plat { c with env := some plat.environ } opts)
  ∧ (applyOptions c (xs ++ ys) =
      match applyOptions c xs with
      | (d, none) => applyOptions d ys
      | (d, some e3) => (d, some e3))
  ∧ (c.initalised = true →
      applyOptions (applyDefaultOptions plat c).1 pre = (c1, none) →
      applyOpt c1 o = (c2, some e) →
      Cmd.Start plat c (pre ++ o :: rest) = ⟨c2, some e, false⟩)
  ∧ (c.initalised = true →
      applyOptions (applyDefaultOptions plat c).1 opts = (c3, none) →
      c3.before = some hk → hk.ret = some e2 →
      Cmd.Start plat c opts = ⟨c3, some e2, false⟩) := by
  refine ⟨start_defaults_first plat c opts, applyOptions_append xs ys c, ?_, ?_⟩
  · intro hinit hpre hfail
    apply start_of_applyOptions_err plat c (pre ++ o :: rest) c2 e hinit
    rw [applyOptions_append pre (o :: rest) (applyDefaultOptions plat c).1, hpre]
    simp [applyOptions, hfail]
  · intro hinit hok hb hr
    exact start_of_before_err plat c opts c3 hk e2 hinit hok hb hr

/-- C5 witness: a failing second Stdin option stops option application; the
trailing Dir option is left unapplied and the process is not created. -/
theorem start_option_protocol_check :
    Cmd.Start ⟨["E=1"], none, none, []⟩ (Command "x" [])
        ([Opt.stdin (Reader.r 0)] ++ Opt.stdin (Reader.r 1) :: [Opt.dir "later"]) =
      ⟨{ Command "x" [] with env := some ["E=1"], stdin := some (Reader.r 0) },
        some (Err.alreadySet Slot.stdin), false⟩ :=
  (start_option_protocol ⟨["E=1"], none, none, []⟩ (Command "x" [])
    { Command "x" [] with env := some ["E=1"], stdin := some (Reader.r 0) }
    { Command "x" [] with env := some ["E=1"], stdin := some (Reader.r 0) }
    (Command "x" []) [] [Opt.stdin (Reader.r 0)] [Opt.dir "later"] [] []
    (Opt.stdin (Reader.r 1)) (Err.alreadySet Slot.stdin) (Err.alreadySet Slot.stdin)
    ⟨0, none⟩).2.2.1 rfl (by decide) (by decide)

/-- C7: the environment is materialized from the invoking process's
environment exactly when still unset, before the options run, and is not read
at all when already set; and Setenv(K,v1) followed by Setenv(K,v2) yields an
effective environment whose K-entries are exactly [K=v2], with all other
entries those of the materialized environment: an existing K= entry is
replaced in place, otherwise K=v2 is appended. -/
theorem setenv_effective_env (plat : Platform) (c : Cmd) (opts : List Opt)
    (l : List String) (name : String) (args : List String) (k v1 v2 : String)
    (hcount : plat.environ.countP (fun e => hasPre e (k ++ "=")) ≤ 1) :
    (c.initalised = true → c.env = none →
      Cmd.Start plat c opts = Cmd.Start plat { c with env := some plat.environ } opts)
  ∧ (c.env = some l → ∀ e2,
      Cmd.Start plat c opts = Cmd.Start { plat with environ := e2 } c opts)
  ∧ ∃ l2,
      (Cmd.Start plat (Command name args) [Opt.setenv k v1, Opt.setenv k v2]).cmd.env
        = some l2
    ∧ l2.filter (fun e => hasPre e (k ++ "=")) = [k ++ "=" ++ v2]
    ∧ l2.filter (fun e => !(hasPre e (k ++ "="))) =
        plat.environ.filter (fun e => !(hasPre e (k ++ "=")))
    ∧ (((∀ e ∈ plat.environ, hasPre e (k ++ "=") = false) ∧
          l2 = plat.environ ++ [k ++ "=" ++ v2])
       ∨ (∃ pre x suf, plat.environ = pre ++ x :: suf ∧ hasPre x (k ++ "=") = true
            ∧ l2 = pre ++ (k ++ "=" ++ v2) :: suf)) := by
  refine ⟨start_defaults_first plat c opts,
    fun henv e2 => start_env_independent plat c opts l e2 henv, ?_⟩
  have henv : (Cmd.Start plat (Command name args)
      [Opt.setenv k v1, Opt.setenv k v2]).cmd.env
      = some (setenvList k v2 (setenvList k v1 plat.environ)) := rfl
  rw [setenv_overwrite] at henv
  refine ⟨setenvList k v2 plat.environ, henv,
    setenv_filter_key k v2 plat.environ hcount,
    setenv_filter_other k v2 plat.environ, ?_⟩
  rcases setenv_shape k v2 plat.environ with ⟨hall, heq⟩ | ⟨pre, x, suf, he, hx, heq⟩
  · left; exact ⟨hall, heq⟩
  · right; exact ⟨pre, x, suf, he, hx, heq⟩

/-- C7 witness: the Setenv clause on a concrete environment that already
holds a K entry; the entry is replaced in place and no duplicate remains. -/
theorem setenv_effective_env_check :
    ∃ l2,
      (Cmd.Start ⟨["A=1", "K=0"], none, none, []⟩ (Command "sh" [])
          [Opt.setenv "K" "a", Opt.setenv "K" "b"]).cmd.env = some l2
    ∧ l2.filter (fun e => hasPre e ("K" ++ "=")) = ["K" ++ "=" ++ "b"]
    ∧ l2.filter (fun e => !(hasPre e ("K" ++ "="))) =
        (["A=1", "K=0"] : List String).filter (fun e => !(hasPre e ("K" ++ "=")))
    ∧ (((∀ e ∈ (["A=1", "K=0"] : List String), hasPre e ("K" ++ "=") = false) ∧
          l2 = ["A=1", "K=0"] ++ ["K" ++ "=" ++ "b"])
       ∨ (∃ pre x suf, (["A=1", "K=0"] : List String) = pre ++ x :: suf
            ∧ hasPre x ("K" ++ "=") = true
            ∧ l2 = pre ++ ("K" ++ "=" ++ "b") :: suf)) :=
  (setenv_effective_env ⟨["A=1", "K=0"], none, none, []⟩ (Command "z" []) [] []
    "sh" [] "K" "a" "b" (by decide)).2.2

theorem output_err_of_applyOptions (plat : Platform) (c : Cmd) (opts2 : List Opt)
    (c2 : Cmd) (e : Err) (hinit : c.initalised = true)
    (hap : applyOptions (applyDefaultOptions plat c).1 (Opt.stdout Writer.buf :: opts2)
      = (c2, some e)) :
    (Cmd.Output plat c opts2).2 = some e := by
  have hs := start_of_applyOptions_err plat c (Opt.stdout Writer.buf :: opts2) c2 e hinit hap
  have hr := run_of_start_err plat c (Opt.stdout Writer.buf :: opts2) c2 e false hs
  unfold Cmd.Output Cmd.outputRun
  rw [hr]

theorem output_fresh_run (plat : Platform) (name : String) (args : List String)
    (hse : plat.startErr = none) :
    Cmd.Output plat (Command name args) [] = (plat.outBytes, plat.waitErr) := by
  rcases plat with ⟨env0, se, we, ob⟩
  obtain rfl : se = none := hse
  rfl

/-- C2: Output prepends the internal capture Stdout option before the
caller's options, so on any initalised command a caller-supplied Stdout
option among the options makes Output fail with an already-set configuration
error — exactly the Stdout-already-set error when it is the first caller
option — and Output always returns the buffer's accumulated bytes alongside
Run's error: on a fresh command the child's output is returned together with
the platform wait's error, even when that error is non-nil. -/
theorem output_capture_conflict (plat : Platform) (c : Cmd) (opts rest : List Opt)
    (w : Writer) (name : String) (args : List String) (hinit : c.initalised = true) :
    (Opt.stdout w ∈ opts → ∃ f, (Cmd.Output plat c opts).2 = some (Err.alreadySet f))
  ∧ (Cmd.Output plat c (Opt.stdout w :: rest)).2 = some (Err.alreadySet Slot.stdout)
  ∧ (plat.startErr = none →
      Cmd.Output plat (Command name args) [] = (plat.outBytes, plat.waitErr)) := by
  refine ⟨?_, ?_, output_fresh_run plat name args⟩
  · intro hmem
    rcases hd : applyDefaultOptions plat c with ⟨c1, ed⟩
    have hed : ed = none := by
      have := applyDefaultOptions_snd plat c; rw [hd] at this; exact this
    subst hed
    cases hso : c1.stdout with
    | some x =>
      have hap : applyOptions c1 (Opt.stdout Writer.buf :: opts)
          = (c1, some (Err.alreadySet Slot.stdout)) := by
        simp [applyOptions, applyOpt, hso]
      refine ⟨Slot.stdout, output_err_of_applyOptions plat c opts c1 _ hinit ?_⟩
      rw [hd]; exact hap
    | none =>
      have h1 : applyOpt c1 (Opt.stdout Writer.buf)
          = ({ c1 with stdout := some Writer.buf }, none) := by
        simp [applyOpt, hso]
      have hsome : ({ c1 with stdout := some Writer.buf }).stdout.isSome = true := by
        simp
      obtain ⟨f, hf⟩ :=
        applyOptions_stdout_conflict opts { c1 with stdout := some Writer.buf } w hsome hmem
      rcases hap2 : applyOptions { c1 with stdout := some Writer.buf } opts with ⟨c2, e2⟩
      rw [hap2] at hf
      simp at hf
      have hap : applyOptions c1 (Opt.stdout Writer.buf :: opts)
          = (c2, some (Err.alreadySet f)) := by
        simp [applyOptions, h1, hap2, hf]
      refine ⟨f, output_err_of_applyOptions plat c opts c2 _ hinit ?_⟩
      rw [hd]; exact hap
  · rcases hd : applyDefaultOptions plat c with ⟨c1, ed⟩
    have hed : ed = none := by
      have := applyDefaultOptions_snd plat c; rw [hd] at this; exact this
    subst hed
    cases hso : c1.stdout with
    | some x =>
      have hap : applyOptions c1 (Opt.stdout Writer.buf :: Opt.stdout w :: rest)
          = (c1, some (Err.alreadySet Slot.stdout)) := by
        simp [applyOptions, applyOpt, hso]
      refine output_err_of_applyOptions plat c (Opt.stdout w :: rest) c1 _ hinit ?_
      rw [hd]; exact hap
    | none =>
      have hap : applyOptions c1 (Opt.stdout Writer.buf :: Opt.stdout w :: rest)
          = ({ c1 with stdout := some Writer.buf }, some (Err.alreadySet Slot.stdout)) := by
        simp [applyOptions, applyOpt, hso]
      refine output_err_of_applyOptions plat c (Opt.stdout w :: rest)
        { c1 with stdout := some Writer.buf } _ hinit ?_
      rw [hd]; exact hap

/-- C2 witness: a caller Stdout option makes Output fail with the
Stdout-already-set error, and a fresh Output returns the child's bytes
alongside a failing platform wait's error. -/
theorem output_capture_conflict_check :
    (Cmd.Output ⟨["E=1"], none, some (Err.platformFail 1), [3, 4]⟩ (Command "x" [])
        [Opt.stdout (Writer.w 2)]).2 = some (Err.alreadySet Slot.stdout)
  ∧ Cmd.Output ⟨["E=1"], none, some (Err.platformFail 1), [3, 4]⟩ (Command "y" []) [] =
      ([3, 4], some (Err.platformFail 1)) :=
  ⟨(output_capture_conflict ⟨["E=1"], none, some (Err.platformFail 1), [3, 4]⟩
      (Command "x" []) [] [] (Writer.w 2) "y" [] rfl).2.1,
   (output_capture_conflict ⟨["E=1"], none, some (Err.platformFail 1), [3, 4]⟩
      (Command "x" []) [] [] (Writer.w 2) "y" [] rfl).2.2 rfl⟩

end Exec
